import Mathlib

/-!
Verification of the tranzo file-translation backend.

The definitions below are a shallow embedding of the Express/Bull backend
(`server.js`, embedded in `backend/test-deployment.sh`): the upload intake,
the single-file and ZIP processing branches of the queue worker, the
in-memory `fileStatus` job store with its JS spread-merge update semantics,
the upload-cleanup helper, and the hourly retention sweep of the
`translated/` folder.  File-system reads and writes and the remote
LibreTranslate call are modelled by explicit state and by oracle functions;
machine behaviour (extraction results, translation results) is passed in as
oracles so that theorems quantify over every possible outcome.
-/

deriving instance DecidableEq for Except

namespace Tranzo

/-! ## Path utilities (Node `path.extname`, `path.basename`, `toLowerCase`) -/

/-- One step of the scan for the last path separator: an occurrence of the
separator resets the accumulator, any other character is appended. -/
def slashStep (acc : List Char) (c : Char) : List Char :=
  if c = '/' then [] else acc ++ [c]

/-- The characters after the last path separator, i.e. Node
`path.basename` for paths with no trailing separator. -/
def afterLastSlash (l : List Char) : List Char :=
  l.foldl slashStep []

/-- Node `path.basename(p)` as a string. -/
def basenameStr (s : String) : String :=
  ⟨afterLastSlash s.data⟩

/-- Scan of a reversed basename for its extension: walks from the end of the
name, collecting characters until the first dot.  A dot that is the first
character of the basename (a dotfile) yields no extension, matching Node. -/
def revExtAux : List Char → List Char → Option (List Char)
  | _, [] => none
  | acc, c :: rest =>
    if c = '.' then (if rest.isEmpty then none else some ('.' :: acc))
    else revExtAux (c :: acc) rest

/-- Node `path.extname(p)` on the character level. -/
def extnameChars (l : List Char) : List Char :=
  (revExtAux [] (afterLastSlash l).reverse).getD []

/-- Node `path.extname(p)` as a string. -/
def extname (s : String) : String :=
  ⟨extnameChars s.data⟩

/-- JS `String.prototype.toLowerCase` restricted to the characters this
backend actually meets (ASCII file extensions). -/
def lowerStr (s : String) : String :=
  ⟨s.data.map Char.toLower⟩

/-- The lower-cased extension the worker dispatches on:
`path.extname(name).toLowerCase()`. -/
def extOfLower (name : String) : String :=
  lowerStr (extname name)

/-- Strip a given extension from the end of a basename when it is a proper
suffix, as Node `path.basename(p, ext)` does. -/
def stripSuffix (b ext : List Char) : List Char :=
  if ext.isSuffixOf b && decide (ext.length < b.length) then
    b.take (b.length - ext.length)
  else b

/-- Node `path.basename(p, ext)` as a string. -/
def basenameExtStr (s ext : String) : String :=
  ⟨stripSuffix (afterLastSlash s.data) ext.data⟩

/-- JS `!text || text.trim() === ''`: the content is empty or whitespace
only. -/
def jsBlank (s : String) : Bool :=
  s.data.all Char.isWhitespace

/-! ## Intake (multer disk storage and the `/upload` handler) -/

/-- Multer disk storage path of an upload accepted at millisecond `ts`:
destination `uploads/`, filename `Date.now() + "-" + file.originalname`. -/
def uploadsPath (ts : Nat) (orig : String) : String :=
  "uploads/" ++ Nat.repr ts ++ "-" ++ orig

/-- The job id generated at intake: `Date.now().toString()`. -/
def genFileId (nowMs : Nat) : String :=
  Nat.repr nowMs

/-! ## The in-memory job store (`fileStatus`) and its merge-update semantics

Every write to `fileStatus[fileId]` in the source is of the shape
`fileStatus[fileId] = { ...fileStatus[fileId], ...update }` (directly or via
`updateFileStatus`): fields present in the update overwrite, fields absent
are kept.  `FileStatus` keeps the fields the claims are about; timestamp
strings (`uploadTime`, `startTime`, ...) are omitted. -/

structure FileStatus where
  status : String
  step : Option String
  progress : Option Nat
  totalFiles : Option Nat
  current : Option Nat
  translatedFile : Option String
  error : Option String
deriving Repr, DecidableEq

/-- A partial update of the job record: `none` means the field is absent
from the update object and the stored value is kept. -/
structure Upd where
  status : Option String
  step : Option String
  progress : Option Nat
  totalFiles : Option Nat
  current : Option Nat
  translatedFile : Option String
  error : Option String
deriving Repr, DecidableEq

/-- Merge of one optional field: the update value wins when present. -/
def mergeO {α : Type} (n o : Option α) : Option α :=
  match n with
  | some v => some v
  | none => o

/-- JS spread-merge `{ ...stored, ...update }` of a job record. -/
def applyUpd (s : FileStatus) (u : Upd) : FileStatus :=
  ⟨u.status.getD s.status, mergeO u.step s.step, mergeO u.progress s.progress,
   mergeO u.totalFiles s.totalFiles, mergeO u.current s.current,
   mergeO u.translatedFile s.translatedFile, mergeO u.error s.error⟩

/-- The record created at intake: `{ status: 'queued', uploadTime }`. -/
def initialStatus : FileStatus :=
  ⟨"queued", none, none, none, none, none, none⟩

/-! ## The single-file worker branch (`processSingleFile`)

The branch performs a fixed sequence of status updates; which error, if
any, interrupts it is abstracted as an outcome.  `failExtract` covers a
read error, an empty DOCX extraction and the unsupported-format throw
(they all abort between the 25% and the 50% update); `failTranslate` and
`failWrite` abort after the 50% and the 75% update respectively. -/

inductive SFOutcome where
  | ok
  | failExtract (msg : String)
  | failTranslate (msg : String)
  | failWrite (msg : String)
deriving Repr, DecidableEq

/-- The translated filename written by the single-file branch:
`path.basename(originalname, ext) + "_translated_to_" + lang + ext`
with `ext = path.extname(originalname).toLowerCase()`. -/
def translatedFilename (originalname lang : String) : String :=
  basenameExtStr originalname (extOfLower originalname) ++ "_translated_to_"
    ++ lang ++ extOfLower originalname

/-- Its location, `path.join(TRANSLATED_FOLDER, translatedFilename)`. -/
def translatedPath (originalname lang : String) : String :=
  "translated/" ++ translatedFilename originalname lang

/-- The message of the error re-thrown by `processSingleFile`:
`Failed to process {ext} file: {message}`. -/
def wrapMsg (name m : String) : String :=
  "Failed to process " ++ extOfLower name ++ " file: " ++ m

/-- Update written when the worker claims the job:
`{ status: 'processing', startTime }`. -/
def updProcessing : Upd :=
  ⟨some "processing", none, none, none, none, none, none⟩

/-- First update of `processSingleFile` (progress 0). -/
def updStart (name : String) : Upd :=
  ⟨none, some ("Processing " ++ name), some 0, some 1, some 0, none, none⟩

/-- Extraction-step update (progress 25). -/
def updExtract (ext : String) : Upd :=
  ⟨none, some ("Extracting content from " ++ ext ++ " file"), some 25, none,
   some 1, none, none⟩

/-- Translation-step update (progress 50). -/
def updTranslate : Upd :=
  ⟨none, some "Translating content", some 50, none, some 1, none, none⟩

/-- Save-step update (progress 75). -/
def updSave : Upd :=
  ⟨none, some "Saving translated content", some 75, none, some 1, none, none⟩

/-- Completion update of the branch (progress 100). -/
def updDone : Upd :=
  ⟨none, some "Translation complete", some 100, none, some 1, none, none⟩

/-- Update written by the catch block of `processSingleFile` before it
re-throws (progress forced to 100). -/
def updErr (m : String) : Upd :=
  ⟨none, some ("Error processing file: " ++ m), some 100, none, some 1, none,
   none⟩

/-- Update written by the worker when the branch returned:
`{ status: 'completed', translatedFile, completedTime }`. -/
def updCompleted (p : String) : Upd :=
  ⟨some "completed", none, none, none, none, some p, none⟩

/-- Update written by the worker catch block (and by the queue failed
handler): `{ status: 'failed', error, failedTime }`. -/
def updFailed (m : String) : Upd :=
  ⟨some "failed", none, none, none, none, none, some m⟩

/-- The status updates performed inside `processSingleFile` for a given
outcome. -/
def branchUpds (name : String) : SFOutcome → List Upd
  | .ok =>
    [updStart name, updExtract (extOfLower name), updTranslate, updSave,
     updDone]
  | .failExtract m => [updStart name, updExtract (extOfLower name), updErr m]
  | .failTranslate m =>
    [updStart name, updExtract (extOfLower name), updTranslate, updErr m]
  | .failWrite m =>
    [updStart name, updExtract (extOfLower name), updTranslate, updSave,
     updErr m]

/-- The terminal update of one attempt, written by the worker around the
branch (success and catch block of `fileQueue.process`). -/
def finalUpd (name lang : String) : SFOutcome → Upd
  | .ok => updCompleted (translatedPath name lang)
  | .failExtract m => updFailed (wrapMsg name m)
  | .failTranslate m => updFailed (wrapMsg name m)
  | .failWrite m => updFailed (wrapMsg name m)

/-- Whether the attempt succeeded. -/
def isOk : SFOutcome → Bool
  | .ok => true
  | _ => false

/-- The wrapped error message of a failed attempt (unused for `ok`). -/
def sfErrMsg (name : String) : SFOutcome → String
  | .ok => ""
  | .failExtract m => wrapMsg name m
  | .failTranslate m => wrapMsg name m
  | .failWrite m => wrapMsg name m

/-- All job-store updates of one attempt of a single-file job. -/
def attemptUpds (name lang : String) (oc : SFOutcome) : List Upd :=
  updProcessing :: branchUpds name oc ++ [finalUpd name lang oc]

/-- All job-store updates of a single-file job over its queue attempts
(Bull replays a failed job with unchanged data, up to `attempts: 3`; a
successful attempt ends the job because of `removeOnComplete: true`).
After the final failed attempt the `fileQueue.on('failed')` observer writes
the terminal status once more. -/
def jobUpds (name lang : String) : List SFOutcome → List Upd
  | [] => []
  | [oc] =>
    attemptUpds name lang oc ++
      (if isOk oc then [] else [updFailed (sfErrMsg name oc)])
  | oc :: rest =>
    attemptUpds name lang oc ++
      (if isOk oc then [] else jobUpds name lang rest)

/-- The successive job-store states produced by a list of updates,
starting from (and including) a given state. -/
def statesFrom (s : FileStatus) : List Upd → List FileStatus
  | [] => [s]
  | u :: rest => s :: statesFrom (applyUpd s u) rest

/-- Every job-store state a status read can observe for a single-file job
with the given per-attempt outcomes. -/
def jobTrace (name lang : String) (ocs : List SFOutcome) : List FileStatus :=
  statesFrom initialStatus (jobUpds name lang ocs)

/-- The progress values written by a list of updates. -/
def progressSeq (l : List Upd) : List Nat :=
  l.filterMap (fun u => u.progress)

/-- The progress values observed across a list of states. -/
def statusProgress (tr : List FileStatus) : List Nat :=
  tr.filterMap (fun st => st.progress)

/-- Monotone non-decrease of a list of naturals. -/
def chainLeB : List Nat → Bool
  | [] => true
  | [_] => true
  | a :: b :: rest => Nat.ble a b && chainLeB (b :: rest)

/-! ## The archive worker branch (`processZip`)

A ZIP entry carries its name, its directory flag and, for `.txt` entries,
the UTF-8 decoding of its bytes.  DOCX extraction (mammoth) and the remote
translation call are oracles, so theorems hold for every behaviour of
those collaborators; the PDF path of the source is a placeholder that
produces fixed text without any real extraction, which the model mirrors. -/

structure ZEntry where
  entryName : String
  isDirectory : Bool
  txtContent : String
deriving Repr, DecidableEq

/-- Oracles for the fallible collaborators of the ZIP branch:
`extractDocx` is mammoth keyed by entry name (`none` = throw), `translate`
is the LibreTranslate call (`none` = any of its three error kinds). -/
structure ZOracles where
  extractDocx : String → Option String
  translate : String → String → Option String

/-- Content extraction for one eligible ZIP entry, mirroring the
extension dispatch of the loop body (`.pdf` reaches the placeholder). -/
def entryExtract (o : ZOracles) (e : ZEntry) : Option String :=
  let ext := extOfLower e.entryName
  if ext = ".txt" then some e.txtContent
  else if ext = ".docx" then o.extractDocx e.entryName
  else some ("Content of PDF file " ++ e.entryName)

/-- The loop body of `processZip` for one entry: `none` when the entry is
skipped (directory, unsupported extension, failed or empty extraction,
failed translation), otherwise the record pushed onto `translatedFiles`.
The second component counts calls of the remote translation service. -/
def processEntry (o : ZOracles) (lang : String) (e : ZEntry) :
    Option (String × String) × Nat :=
  if e.isDirectory then (none, 0)
  else if !([".txt", ".docx", ".pdf"].contains (extOfLower e.entryName)) then
    (none, 0)
  else
    match entryExtract o e with
    | none => (none, 0)
    | some c =>
      if jsBlank c then (none, 0)
      else
        match o.translate c lang with
        | none => (none, 1)
        | some tc =>
          (some ("translated/" ++ translatedFilename e.entryName lang, tc), 1)

/-- The errors `processZip` can throw before or after its entry loop. -/
inductive ZipErr where
  | zipFileEmpty
  | invalidZip (msg : String)
  | emptyOrInvalid
  | noFilesTranslated
deriving Repr, DecidableEq

/-- Whether an error belongs to the InvalidArchive/EmptyArchive family of
the specification (as opposed to `NoFilesTranslated`). -/
def isInvalidArchiveClass : ZipErr → Bool
  | .noFilesTranslated => false
  | _ => true

/-- The `translatedFiles` list accumulated by the entry loop. -/
def zipOuts (o : ZOracles) (lang : String) (entries : List ZEntry) :
    List (String × String) :=
  List.filterMap Prod.fst (entries.map (processEntry o lang))

/-- The number of remote translate calls the entry loop performs. -/
def zipCalls (o : ZOracles) (lang : String) (entries : List ZEntry) : Nat :=
  ((entries.map (processEntry o lang)).map Prod.snd).sum

/-- `processZip`.  Inputs: the oracles, the target language, the byte size
of the uploaded file, the AdmZip constructor outcome (`some msg` = throw),
the entry list, and the stored upload path.  Output: either an error or
the result archive (its filename `translated_to_{lang}_{basename(zipPath)}`
and its entries), paired with the number of remote translate calls. -/
def processZipC (o : ZOracles) (lang : String) (zipSize : Nat)
    (zipErrMsg : Option String) (entries : List ZEntry) (zipPath : String) :
    Except ZipErr (String × List (String × String)) × Nat :=
  if zipSize = 0 then (.error .zipFileEmpty, 0)
  else
    match zipErrMsg with
    | some m => (.error (.invalidZip m), 0)
    | none =>
      if entries = [] then (.error .emptyOrInvalid, 0)
      else if zipOuts o lang entries = [] then
        (.error .noFilesTranslated, zipCalls o lang entries)
      else
        (.ok ("translated_to_" ++ lang ++ "_" ++ basenameStr zipPath,
          zipOuts o lang entries), zipCalls o lang entries)

/-- Whether an eligible entry is skipped by the loop (failed or empty
extraction, or failed translation). -/
def failB (o : ZOracles) (lang : String) (e : ZEntry) : Bool :=
  ((processEntry o lang e).fst).isNone

/-! ## The `/upload` handler -/

structure UploadReq where
  hasFile : Bool
  originalname : String
  mimetype : String
  language : Option String
deriving Repr, DecidableEq

/-- The mimetypes accepted for a `.zip` upload. -/
def validZipMimeTypes : List String :=
  ["application/zip", "application/x-zip-compressed",
   "application/octet-stream", "multipart/x-zip"]

/-- JS `originalname.endsWith('.zip')`. -/
def endsWithZip (s : String) : Bool :=
  List.isSuffixOf ".zip".data s.data

/-- `req.body.language || 'en'`: an absent or empty language field falls
back to English. -/
def reqLang (req : UploadReq) : String :=
  match req.language with
  | none => "en"
  | some l => if l = "" then "en" else l

/-- The job descriptor pushed onto the queue by `fileQueue.add`. -/
structure JobPayload where
  fileId : String
  filePath : String
  targetLanguage : String
  originalname : String
deriving Repr, DecidableEq

inductive UploadResp where
  | noFile
  | invalidZipType
  | queued (fileId : String) (payload : JobPayload)
deriving Repr, DecidableEq

/-- The `/upload` handler: reject when no file was sent, reject a `.zip`
with an unexpected mimetype, otherwise generate the id from the current
millisecond clock and enqueue.  `tsStore` is the clock value multer used
for the stored filename, `tsId` the one of the handler. -/
def handleUpload (tsStore tsId : Nat) (req : UploadReq) : UploadResp :=
  if !req.hasFile then .noFile
  else if endsWithZip req.originalname
      && !(validZipMimeTypes.contains req.mimetype) then .invalidZipType
  else
    .queued (genFileId tsId)
      ⟨genFileId tsId, uploadsPath tsStore req.originalname, reqLang req,
       req.originalname⟩

/-- `fileStatus[fileId] = rec`: overwrite of a keyed record in the store. -/
def setJob (store : List (String × FileStatus)) (id : String)
    (st : FileStatus) : List (String × FileStatus) :=
  (id, st) :: store.filter (fun kv => kv.fst != id)

/-! ## Upload cleanup (`cleanupFile`) and the worker finally block -/

/-- `cleanupFile`: delete the file when it exists; a deletion error
(`unlinkOk = false`) is caught and logged, never propagated.  The file
system is the list of existing paths. -/
def cleanupFile (unlinkOk : Bool) (fs : List String) (p : String) :
    List String :=
  if p ∈ fs then (if unlinkOk then fs.filter (fun q => q != p) else fs)
  else fs

/-- The result value or thrown error of one single-file attempt. -/
def attemptResult (name lang : String) : SFOutcome → Except String String
  | .ok => .ok (translatedPath name lang)
  | .failExtract m => .error (wrapMsg name m)
  | .failTranslate m => .error (wrapMsg name m)
  | .failWrite m => .error (wrapMsg name m)

/-- The try/catch/finally shape of `fileQueue.process`: whatever the
branch did, the finally block runs `cleanupFile(filePath)` on the way
out, and the attempt outcome is whatever the branch produced. -/
def processAttemptFS (name lang : String) (oc : SFOutcome) (unlinkOk : Bool)
    (fs : List String) (src : String) : Except String String × List String :=
  match attemptResult name lang oc with
  | .ok p => (.ok p, cleanupFile unlinkOk fs src)
  | .error e => (.error e, cleanupFile unlinkOk fs src)

/-! ## Retention sweep (`cleanupTranslatedFolder`) and `/download` -/

/-- One artifact of the `translated/` folder: its filename and its
last-modified time in milliseconds. -/
structure Artifact where
  name : String
  mtimeMs : Nat
deriving Repr, DecidableEq

/-- The state the sweep and the download endpoint touch: the result
artifact store and the job store. -/
structure SystemState where
  artifacts : List Artifact
  jobs : List (String × FileStatus)
deriving Repr, DecidableEq

def oneHourInMs : Nat := 60 * 60 * 1000

/-- `cleanupTranslatedFolder`: delete every file of the translated folder
whose age `now - mtimeMs` exceeds one hour; the job store is not
consulted. -/
def cleanupTranslatedFolder (now : Nat) (s : SystemState) : SystemState :=
  ⟨s.artifacts.filter (fun a => decide (now - a.mtimeMs ≤ oneHourInMs)),
   s.jobs⟩

/-- Keyed lookup in the job store. -/
def lookupJob (jobs : List (String × FileStatus)) (id : String) :
    Option FileStatus :=
  (jobs.find? (fun kv => kv.fst == id)).map (fun kv => kv.snd)

/-- `fs.existsSync(translatedFilePath)` for the result store. -/
def existsTranslated (arts : List Artifact) (p : String) : Bool :=
  arts.any (fun a => ("translated/" ++ a.name) == p)

inductive DownloadRes where
  | invalidId
  | notCompleted (st : String)
  | notFound
  | found (p : String)
deriving Repr, DecidableEq

/-- The `/download/:fileId` handler: 404 for an unknown id, 400 while the
job is not completed, 404 when the artifact no longer exists, otherwise
the file is served. -/
def download (s : SystemState) (id : String) : DownloadRes :=
  match lookupJob s.jobs id with
  | none => .invalidId
  | some st =>
    if st.status != "completed" then .notCompleted st.status
    else
      match st.translatedFile with
      | none => .notFound
      | some p =>
        if existsTranslated s.artifacts p then .found p else .notFound

/-! ## Invariant predicates over job-store traces -/

/-- An update is benign when it neither completes the job nor attaches a
result path, and attaches an error whenever it marks the job failed. -/
def Benign (u : Upd) : Prop :=
  u.status ≠ some "completed" ∧ u.translatedFile = none ∧
    (u.status = some "failed" → u.error ≠ none)

/-- The shape of the update lists the worker actually emits: a run of
benign updates, optionally closed by a single completing update that also
sets the result path (nothing follows a completion, because completed
jobs are removed from the queue and never replayed). -/
inductive TraceOK : List Upd → Prop
  | nil : TraceOK []
  | done (u : Upd) (h1 : u.status = some "completed")
      (h2 : u.translatedFile ≠ none) : TraceOK [u]
  | step (u : Upd) (l : List Upd) (hb : Benign u) (ht : TraceOK l) :
      TraceOK (u :: l)

/-- A non-terminal-success store state: no result path yet, not completed,
and an error present whenever the status is failed. -/
def MidState (s : FileStatus) : Prop :=
  s.translatedFile = none ∧ s.status ≠ "completed" ∧
    (s.status = "failed" → s.error ≠ none)

/-- The store invariant that actually holds on every reachable state:
the result path is present exactly on completed states, and failed states
carry an error. -/
def JobInv (s : FileStatus) : Prop :=
  (s.translatedFile ≠ none ↔ s.status = "completed") ∧
    (s.status = "failed" → s.error ≠ none)

/-! ## Concrete fixtures used by witnesses and counterexamples -/

/-- A concrete oracle assignment: mammoth always throws, LibreTranslate
answers deterministically. -/
def oracleW : ZOracles :=
  ⟨fun _ => none, fun c _ => some ("T:" ++ c)⟩

/-- A store with one completed job whose artifact was produced at epoch
time 0. -/
def sweepWitnessState : SystemState :=
  ⟨[⟨"a.txt", 0⟩],
   [("1", ⟨"completed", none, none, none, none, some "translated/a.txt",
      none⟩)]⟩

end Tranzo

namespace Tranzo

/-- Sanity examples for the path model (matching Node behaviour). -/
example : extname "hello.txt" = ".txt" := by decide
example : extname "a/b/archive.tar.gz" = ".gz" := by decide
example : extname ".bashrc" = "" := by decide
example : extname "noext" = "" := by decide
example : extOfLower "A.TXT" = ".txt" := by decide
example : basenameStr "uploads/123-docs.zip" = "123-docs.zip" := by decide
example : basenameExtStr "hello.txt" ".txt" = "hello" := by decide
example : basenameExtStr "dir/a.txt" ".txt" = "a" := by decide
example : basenameExtStr ".txt" ".txt" = ".txt" := by decide
example : jsBlank "  \t " = true := by decide
example : jsBlank "hi" = false := by decide
example : uploadsPath 17 "docs.zip" = "uploads/17-docs.zip" := by decide

example : translatedFilename "hello.txt" "es" = "hello_translated_to_es.txt" := by
  decide

/-! ## Helper lemmas: option merges and benign updates -/

theorem mergeO_ne_none_right {α : Type} {a b : Option α} (h : b ≠ none) :
    mergeO a b ≠ none := by
  cases a <;> simp [mergeO, h]

theorem mergeO_ne_none_left {α : Type} {a : Option α} (b : Option α)
    (h : a ≠ none) : mergeO a b ≠ none := by
  cases a
  · exact absurd rfl h
  · simp [mergeO]

theorem jobInv_of_mid {s : FileStatus} (h : MidState s) : JobInv s := by
  obtain ⟨h1, h2, h3⟩ := h
  refine ⟨⟨fun hc => absurd h1 hc, fun hc => absurd hc h2⟩, h3⟩

theorem benign_of_fields {u : Upd} (h1 : u.status = none)
    (h2 : u.translatedFile = none) : Benign u := by
  refine ⟨by simp [h1], h2, by simp [h1]⟩

theorem benign_updProcessing : Benign updProcessing := by
  refine ⟨by decide, rfl, by decide⟩

theorem benign_updFailed (m : String) : Benign (updFailed m) := by
  refine ⟨by simp [updFailed], rfl, fun _ => by simp [updFailed]⟩

theorem midState_applyUpd {s : FileStatus} {u : Upd} (hs : MidState s)
    (hb : Benign u) : MidState (applyUpd s u) := by
  obtain ⟨hs1, hs2, hs3⟩ := hs
  obtain ⟨hb1, hb2, hb3⟩ := hb
  refine ⟨?_, ?_, ?_⟩
  · show mergeO u.translatedFile s.translatedFile = none
    rw [hb2]
    exact hs1
  · show u.status.getD s.status ≠ "completed"
    cases hu : u.status with
    | none => simpa using hs2
    | some v =>
      intro hv
      simp at hv
      exact hb1 (by rw [hu, hv])
  · show u.status.getD s.status = "failed" → mergeO u.error s.error ≠ none
    intro hf
    cases hu : u.status with
    | none =>
      rw [hu] at hf
      simp at hf
      exact mergeO_ne_none_right (hs3 hf)
    | some v =>
      rw [hu] at hf
      simp at hf
      exact mergeO_ne_none_left _ (hb3 (by rw [hu, hf]))

theorem statesFrom_mem_inv {l : List Upd} (ht : TraceOK l) :
    ∀ s : FileStatus, MidState s → ∀ t ∈ statesFrom s l, JobInv t := by
  induction ht with
  | nil =>
    intro s hs t htm
    simp [statesFrom] at htm
    subst htm
    exact jobInv_of_mid hs
  | done u h1 h2 =>
    intro s hs t htm
    simp [statesFrom] at htm
    rcases htm with rfl | rfl
    · exact jobInv_of_mid hs
    · refine ⟨⟨fun _ => ?_, fun _ => ?_⟩, ?_⟩
      · show (applyUpd s u).status = "completed"
        show u.status.getD s.status = "completed"
        rw [h1]
        rfl
      · show mergeO u.translatedFile s.translatedFile ≠ none
        exact mergeO_ne_none_left _ h2
      · intro hf
        have hc : (applyUpd s u).status = "completed" := by
          show u.status.getD s.status = "completed"
          rw [h1]
          rfl
        rw [hc] at hf
        simp at hf
  | step u l hb ht2 ih =>
    intro s hs t htm
    rcases htm with _ | ⟨_, hmem⟩
    · exact jobInv_of_mid hs
    · exact ih (applyUpd s u) (midState_applyUpd hs hb) t hmem

theorem traceOK_append {l1 l2 : List Upd} (h1 : ∀ u ∈ l1, Benign u)
    (h2 : TraceOK l2) : TraceOK (l1 ++ l2) := by
  induction l1 with
  | nil => simpa using h2
  | cons u rest ih =>
    exact TraceOK.step u _ (h1 u (by simp))
      (ih (fun v hv => h1 v (by simp [hv])))

theorem benign_mem_branch (name : String) (oc : SFOutcome) :
    ∀ u ∈ branchUpds name oc, Benign u := by
  intro u hu
  cases oc with
  | ok =>
    simp [branchUpds] at hu
    rcases hu with rfl | rfl | rfl | rfl | rfl <;> exact benign_of_fields rfl rfl
  | failExtract m =>
    simp [branchUpds] at hu
    rcases hu with rfl | rfl | rfl <;> exact benign_of_fields rfl rfl
  | failTranslate m =>
    simp [branchUpds] at hu
    rcases hu with rfl | rfl | rfl | rfl <;> exact benign_of_fields rfl rfl
  | failWrite m =>
    simp [branchUpds] at hu
    rcases hu with rfl | rfl | rfl | rfl | rfl <;> exact benign_of_fields rfl rfl

theorem benign_mem_attempt (name lang : String) (oc : SFOutcome)
    (hf : isOk oc = false) : ∀ u ∈ attemptUpds name lang oc, Benign u := by
  intro u hu
  simp [attemptUpds] at hu
  rcases hu with rfl | hu | rfl
  · exact benign_updProcessing
  · exact benign_mem_branch name oc u hu
  · cases oc with
    | ok => simp [isOk] at hf
    | failExtract m => exact benign_updFailed _
    | failTranslate m => exact benign_updFailed _
    | failWrite m => exact benign_updFailed _

theorem traceOK_attempt_ok (name lang : String) :
    TraceOK (attemptUpds name lang .ok) :=
  TraceOK.step _ _ benign_updProcessing
    (traceOK_append (benign_mem_branch name .ok)
      (TraceOK.done _ rfl (by simp [finalUpd, updCompleted])))

theorem traceOK_jobUpds (name lang : String) (ocs : List SFOutcome) :
    TraceOK (jobUpds name lang ocs) := by
  induction ocs with
  | nil => exact TraceOK.nil
  | cons oc rest ih =>
    cases rest with
    | nil =>
      cases oc with
      | ok =>
        show TraceOK (attemptUpds name lang .ok ++ [])
        rw [List.append_nil]
        exact traceOK_attempt_ok name lang
      | failExtract m =>
        exact traceOK_append (benign_mem_attempt name lang _ rfl)
          (TraceOK.step _ _ (benign_updFailed _) TraceOK.nil)
      | failTranslate m =>
        exact traceOK_append (benign_mem_attempt name lang _ rfl)
          (TraceOK.step _ _ (benign_updFailed _) TraceOK.nil)
      | failWrite m =>
        exact traceOK_append (benign_mem_attempt name lang _ rfl)
          (TraceOK.step _ _ (benign_updFailed _) TraceOK.nil)
    | cons r rs =>
      cases oc with
      | ok =>
        show TraceOK (attemptUpds name lang .ok ++ [])
        rw [List.append_nil]
        exact traceOK_attempt_ok name lang
      | failExtract m =>
        exact traceOK_append (benign_mem_attempt name lang _ rfl) ih
      | failTranslate m =>
        exact traceOK_append (benign_mem_attempt name lang _ rfl) ih
      | failWrite m =>
        exact traceOK_append (benign_mem_attempt name lang _ rfl) ih

/-- C2: a successful single-file job writes the progress values
0, 25, 50, 75, 100 and exactly these, in this order (extract at 25,
translate at 50, write at 75, complete at 100), and its final store state
is completed with the result written to
`translated/{basename}_translated_to_{lang}{ext}`; for `hello.txt` with
target `es`, that filename is `hello_translated_to_es.txt`. -/
theorem single_file_progress_and_result_name (name lang : String) :
    progressSeq (jobUpds name lang [SFOutcome.ok]) = [0, 25, 50, 75, 100] ∧
      (∃ s : FileStatus,
        (jobTrace name lang [SFOutcome.ok]).getLast? = some s ∧
          s.status = "completed" ∧
          s.translatedFile
            = some ("translated/" ++ translatedFilename name lang)) ∧
      translatedFilename "hello.txt" "es" = "hello_translated_to_es.txt" := by
  refine ⟨rfl, ⟨_, rfl, rfl, rfl⟩, by decide⟩

/-- C3 counterexample: after a failed first attempt is retried and the
retry succeeds (two attempts, within the three the queue allows), the job
store holds a state whose status is `completed` while its `error` field is
still set from the first attempt — the claimed iff between a non-empty
error and the `failed` status is false. -/
theorem job_error_persists_after_retry :
    ∃ s ∈ jobTrace "hello.txt" "es"
        [SFOutcome.failTranslate "service down", SFOutcome.ok],
      s.status = "completed" ∧ s.error ≠ none := by decide

/-- C3 (amended): on every reachable job-store state of a single-file job,
`translatedFile` is set iff the status is `completed`, and a `failed`
status always carries an error; but an error set by a failed attempt
persists through the spread-merge into later `processing` and `completed`
states, so a non-empty error does not imply status `failed`. -/
theorem job_store_invariant_amended (name lang : String)
    (ocs : List SFOutcome) (s : FileStatus)
    (hs : s ∈ jobTrace name lang ocs) :
    (s.translatedFile ≠ none ↔ s.status = "completed") ∧
      (s.status = "failed" → s.error ≠ none) :=
  statesFrom_mem_inv (traceOK_jobUpds name lang ocs) initialStatus
    ⟨rfl, by decide, fun h => absurd h (by decide)⟩ s hs

/-- Witness for the amended C3 invariant at a concrete trace state. -/
theorem job_store_invariant_amended_witness :
    (initialStatus.translatedFile ≠ none ↔ initialStatus.status = "completed")
      ∧ (initialStatus.status = "failed" → initialStatus.error ≠ none) :=
  job_store_invariant_amended "hello.txt" "es" [SFOutcome.ok] initialStatus
    (by decide)

/-- C4 counterexample: across a retry of the same job id the observed
progress values are not monotonically non-decreasing — the failed first
attempt leaves progress at 100 and the retry resets it to 0. -/
theorem progress_resets_across_retries :
    chainLeB (statusProgress (jobTrace "hello.txt" "es"
      [SFOutcome.failTranslate "service down", SFOutcome.ok])) = false := by
  decide

/-- C4 (amended): within any single attempt of a single-file job the
progress writes are monotonically non-decreasing, and every attempt
restarts the progress sequence at 0 — so reads that span a queue retry
can observe a decrease. -/
theorem progress_monotone_within_attempt (name lang : String)
    (oc : SFOutcome) :
    chainLeB (progressSeq (attemptUpds name lang oc)) = true ∧
      (progressSeq (attemptUpds name lang oc)).head? = some 0 := by
  cases oc <;> exact ⟨rfl, rfl⟩

/-- C7 (code bug): the id handed out by `/upload` is
`Date.now().toString()`, so two uploads accepted in the same millisecond
receive the same id, and the second `fileStatus[fileId] = ...` assignment
overwrites the record of the first — the code's own comment promises a
unique file id. -/
theorem upload_id_collision :
    handleUpload 1700000000123 1700000000123
        ⟨true, "a.txt", "text/plain", some "es"⟩
      = UploadResp.queued "1700000000123"
          ⟨"1700000000123", "uploads/1700000000123-a.txt", "es", "a.txt"⟩ ∧
      handleUpload 1700000000123 1700000000123
        ⟨true, "b.txt", "text/plain", some "fr"⟩
      = UploadResp.queued "1700000000123"
          ⟨"1700000000123", "uploads/1700000000123-b.txt", "fr", "b.txt"⟩ ∧
      (setJob (setJob [] "1700000000123" initialStatus) "1700000000123"
        initialStatus).length = 1 := by
  refine ⟨by decide, by decide, by decide⟩

/-- C8: the finally block of the worker attempts the source-upload
deletion on the way out of every attempt, successful or failed; the
deletion is idempotent (deleting an already-deleted path is a no-op), so
the upload is deleted exactly once; and a failing deletion
(`unlinkOk = false`) is swallowed and never changes the attempt's
outcome. -/
theorem cleanup_exactly_once (name lang src : String) (oc : SFOutcome)
    (unlinkOk : Bool) (fs : List String) :
    ((processAttemptFS name lang oc unlinkOk fs src).snd
        = cleanupFile unlinkOk fs src) ∧
      (cleanupFile true (cleanupFile true fs src) src
        = cleanupFile true fs src) ∧
      (src ∉ fs → cleanupFile unlinkOk fs src = fs) ∧
      ((processAttemptFS name lang oc false fs src).fst
        = (processAttemptFS name lang oc true fs src).fst) := by
  refine ⟨?_, ?_, ?_, ?_⟩
  · cases oc <;> rfl
  · by_cases h : src ∈ fs
    · have h2 : src ∉ fs.filter (fun q => q != src) := by
        simp [List.mem_filter]
      simp [cleanupFile, h, h2]
    · simp [cleanupFile, h]
  · intro h
    simp [cleanupFile, h]
  · cases oc <;> rfl

/-- Witness for C8 at a concrete attempt and file system. -/
theorem cleanup_exactly_once_witness :
    cleanupFile true [] "uploads/1-a.txt" = [] ∧
      (processAttemptFS "a.txt" "es" SFOutcome.ok false
        ["uploads/1-a.txt"] "uploads/1-a.txt").fst
        = (processAttemptFS "a.txt" "es" SFOutcome.ok true
          ["uploads/1-a.txt"] "uploads/1-a.txt").fst :=
  ⟨(cleanup_exactly_once "a.txt" "es" "uploads/1-a.txt" SFOutcome.ok true
      []).2.2.1 (by simp),
   (cleanup_exactly_once "a.txt" "es" "uploads/1-a.txt" SFOutcome.ok true
      ["uploads/1-a.txt"]).2.2.2⟩

/-- C10: an upload request that omits the language field is not rejected
for that reason, and is enqueued with target language `en`
(`req.body.language || 'en'`). -/
theorem default_language_en (tsStore tsId : Nat) (req : UploadReq)
    (hf : req.hasFile = true) (hl : req.language = none)
    (hz : endsWithZip req.originalname = false
      ∨ validZipMimeTypes.contains req.mimetype = true) :
    handleUpload tsStore tsId req
      = UploadResp.queued (genFileId tsId)
          ⟨genFileId tsId, uploadsPath tsStore req.originalname, "en",
           req.originalname⟩ := by
  have hlang : reqLang req = "en" := by simp [reqLang, hl]
  rcases hz with hz | hz
  · simp [handleUpload, hf, hz, hlang]
  · have hz2 : req.mimetype ∈ validZipMimeTypes := by simpa using hz
    simp [handleUpload, hf, hlang]
    intro _
    exact hz2

/-- Witness for C10 at a concrete upload request. -/
theorem default_language_en_witness :
    handleUpload 5 7 ⟨true, "notes.txt", "text/plain", none⟩
      = UploadResp.queued (genFileId 7)
          ⟨genFileId 7, uploadsPath 5 "notes.txt", "en", "notes.txt"⟩ :=
  default_language_en 5 7 ⟨true, "notes.txt", "text/plain", none⟩ rfl rfl
    (Or.inl (by decide))

/-- C9: one run of the retention sweep keeps exactly the artifacts whose
age `now - mtimeMs` is within one hour (deleting exactly the older ones),
leaves every job-store record unchanged, and a subsequent download of a
completed job whose artifact was swept answers `notFound`. -/
theorem retention_sweep_frame (now : Nat) (s : SystemState) :
    ((cleanupTranslatedFolder now s).jobs = s.jobs) ∧
      (∀ a : Artifact, a ∈ (cleanupTranslatedFolder now s).artifacts ↔
        (a ∈ s.artifacts ∧ now - a.mtimeMs ≤ oneHourInMs)) ∧
      (∀ (id : String) (st : FileStatus) (p : String),
        lookupJob s.jobs id = some st → st.status = "completed" →
        st.translatedFile = some p →
        existsTranslated (cleanupTranslatedFolder now s).artifacts p = false →
        download (cleanupTranslatedFolder now s) id = DownloadRes.notFound) := by
  refine ⟨rfl, ?_, ?_⟩
  · intro a
    simp [cleanupTranslatedFolder, List.mem_filter]
  · intro id st p h1 h2 h3 h4
    have hj : lookupJob (cleanupTranslatedFolder now s).jobs id = some st := h1
    simp [download, hj, h2, h3, h4]

/-- Witness for C9: an artifact last modified two hours before the sweep
is deleted, and the download of its completed job fails with 404. -/
theorem retention_sweep_frame_witness :
    download (cleanupTranslatedFolder 7200000 sweepWitnessState) "1"
      = DownloadRes.notFound :=
  (retention_sweep_frame 7200000 sweepWitnessState).2.2 "1"
    ⟨"completed", none, none, none, none, some "translated/a.txt", none⟩
    "translated/a.txt" (by decide) rfl rfl (by decide)

/-! ## Helper lemmas: the ZIP entry loop -/

theorem outs_len (o : ZOracles) (lang : String) (entries : List ZEntry) :
    (zipOuts o lang entries).length + entries.countP (failB o lang)
      = entries.length := by
  unfold zipOuts
  induction entries with
  | nil => rfl
  | cons e es ih =>
    rw [List.map_cons, List.countP_cons]
    rcases h : (processEntry o lang e).fst with _ | v
    · rw [List.filterMap_cons_none h]
      have hf : failB o lang e = true := by simp [failB, h]
      rw [hf]
      rw [if_pos rfl, List.length_cons]
      omega
    · rw [List.filterMap_cons_some h]
      have hf : failB o lang e = false := by simp [failB, h]
      rw [hf]
      rw [if_neg (by simp), List.length_cons, List.length_cons]
      omega

/-- C1: for an archive job over N eligible entries of which k fail
extraction or translation (an entry fails when its loop body pushes no
output: extraction throw, empty content, or translation throw), the
attempt returns the result archive with exactly N-k outputs when k < N
(the job is then marked completed), and throws `NoFilesTranslated`
(message `No files were successfully translated`, the job is marked
failed) when k = N. -/
theorem zip_partial_tolerance (o : ZOracles) (lang : String) (n : Nat)
    (entries : List ZEntry) (zp : String) (hn : n ≠ 0) (hne : entries ≠ [])
    (helig : ∀ e ∈ entries, e.isDirectory = false ∧
      ([".txt", ".docx", ".pdf"].contains (extOfLower e.entryName)) = true) :
    (entries.countP (failB o lang) < entries.length →
      ∃ zname outs calls,
        processZipC o lang n none entries zp = (.ok (zname, outs), calls) ∧
          outs.length = entries.length - entries.countP (failB o lang)) ∧
    (entries.countP (failB o lang) = entries.length →
      ∃ calls,
        processZipC o lang n none entries zp
          = (.error .noFilesTranslated, calls)) := by
  have hlen := outs_len o lang entries
  have hbase : processZipC o lang n none entries zp
      = if zipOuts o lang entries = [] then
          (.error .noFilesTranslated, zipCalls o lang entries)
        else
          (.ok ("translated_to_" ++ lang ++ "_" ++ basenameStr zp,
            zipOuts o lang entries), zipCalls o lang entries) := by
    unfold processZipC
    rw [if_neg hn, if_neg hne]
  constructor
  · intro hk
    have hemp : zipOuts o lang entries ≠ [] := by
      intro hfm
      rw [hfm] at hlen
      simp only [List.length_nil, Nat.zero_add] at hlen
      omega
    refine ⟨"translated_to_" ++ lang ++ "_" ++ basenameStr zp,
      zipOuts o lang entries, zipCalls o lang entries, ?_, by omega⟩
    rw [hbase, if_neg hemp]
  · intro hk
    have hemp : zipOuts o lang entries = [] := by
      rcases hfm : zipOuts o lang entries with _ | ⟨x, xs⟩
      · rfl
      · rw [hfm] at hlen
        simp only [List.length_cons] at hlen
        omega
    refine ⟨zipCalls o lang entries, ?_⟩
    rw [hbase, if_pos hemp]

/-- Witness for C1: a two-entry archive with one blank entry completes
with one output (k = 1 < N = 2), and a one-entry archive whose only entry
is blank fails with `NoFilesTranslated` (k = N = 1). -/
theorem zip_partial_tolerance_witness :
    (∃ zname outs calls,
      processZipC oracleW "es" 5 none
          [⟨"a.txt", false, "hi"⟩, ⟨"b.txt", false, ""⟩] "uploads/1-d.zip"
        = (.ok (zname, outs), calls) ∧ outs.length = 1) ∧
    (∃ calls,
      processZipC oracleW "es" 5 none [⟨"c.txt", false, " "⟩]
          "uploads/1-d.zip"
        = (.error .noFilesTranslated, calls)) := by
  constructor
  · obtain ⟨z, outs, c, he, hl⟩ :=
      (zip_partial_tolerance oracleW "es" 5
        [⟨"a.txt", false, "hi"⟩, ⟨"b.txt", false, ""⟩] "uploads/1-d.zip"
        (by decide) (by decide) (by decide)).1 (by decide)
    exact ⟨z, outs, c, he, hl.trans (by decide)⟩
  · exact (zip_partial_tolerance oracleW "es" 5 [⟨"c.txt", false, " "⟩]
      "uploads/1-d.zip" (by decide) (by decide) (by decide)).2 (by decide)

theorem dirs_skip (o : ZOracles) (lang : String) (entries : List ZEntry) :
    (∀ e ∈ entries, e.isDirectory = true) →
      zipOuts o lang entries = [] ∧ zipCalls o lang entries = 0 := by
  unfold zipOuts zipCalls
  induction entries with
  | nil => exact fun _ => ⟨rfl, rfl⟩
  | cons e es ih =>
    intro h
    have he : processEntry o lang e = (none, 0) := by
      unfold processEntry
      rw [if_pos (h e (by simp))]
    obtain ⟨h1, h2⟩ := ih (fun x hx => h x (List.mem_cons_of_mem e hx))
    constructor
    · rw [List.map_cons, List.filterMap_cons_none (by rw [he]), h1]
    · rw [List.map_cons, List.map_cons, List.sum_cons, h2, he]

/-- C6 counterexample: a non-empty valid ZIP containing only a directory
entry passes the validation checks (its entry list is non-empty) and
fails only after the loop, with `NoFilesTranslated` — not with an
InvalidArchive-class error as the claim states. -/
theorem only_directories_not_invalid_archive :
    processZipC oracleW "es" 10 none [⟨"docs/", true, ""⟩] "uploads/1-d.zip"
      = (.error .noFilesTranslated, 0) ∧
      isInvalidArchiveClass .noFilesTranslated = false := by decide

/-- C6 (amended): a zero-byte upload, an invalid archive, and an archive
with zero entries each fail with an InvalidArchive-class error and zero
translate calls; but an archive containing only directory entries is not
caught by those checks — it fails with `NoFilesTranslated` instead (still
with zero translate calls). -/
theorem archive_validation_amended (o : ZOracles) (lang zp : String) :
    (∀ (vm : Option String) (entries : List ZEntry),
      processZipC o lang 0 vm entries zp = (.error .zipFileEmpty, 0) ∧
        isInvalidArchiveClass .zipFileEmpty = true) ∧
    (∀ (n : Nat) (m : String) (entries : List ZEntry), n ≠ 0 →
      processZipC o lang n (some m) entries zp
        = (.error (.invalidZip m), 0) ∧
        isInvalidArchiveClass (.invalidZip m) = true) ∧
    (∀ n : Nat, n ≠ 0 →
      processZipC o lang n none [] zp = (.error .emptyOrInvalid, 0) ∧
        isInvalidArchiveClass .emptyOrInvalid = true) ∧
    (∀ (n : Nat) (entries : List ZEntry), n ≠ 0 → entries ≠ [] →
      (∀ e ∈ entries, e.isDirectory = true) →
      processZipC o lang n none entries zp
        = (.error .noFilesTranslated, 0) ∧
        isInvalidArchiveClass .noFilesTranslated = false) := by
  refine ⟨?_, ?_, ?_, ?_⟩
  · intro vm entries
    exact ⟨by unfold processZipC; rw [if_pos rfl], rfl⟩
  · intro n m entries hn
    exact ⟨by unfold processZipC; rw [if_neg hn], rfl⟩
  · intro n hn
    exact ⟨by unfold processZipC; rw [if_neg hn, if_pos rfl], rfl⟩
  · intro n entries hn hne hdir
    obtain ⟨h1, h2⟩ := dirs_skip o lang entries hdir
    refine ⟨?_, rfl⟩
    unfold processZipC
    rw [if_neg hn, if_neg hne, if_pos h1, h2]

/-- Witness for the amended C6 at concrete archives. -/
theorem archive_validation_amended_witness :
    processZipC oracleW "es" 0 none [] "z.zip"
      = (.error .zipFileEmpty, 0) ∧
      processZipC oracleW "es" 9 (some "bad") [] "z.zip"
        = (.error (.invalidZip "bad"), 0) ∧
      processZipC oracleW "es" 9 none [] "z.zip"
        = (.error .emptyOrInvalid, 0) ∧
      processZipC oracleW "es" 9 none [⟨"d/", true, ""⟩] "z.zip"
        = (.error .noFilesTranslated, 0) :=
  ⟨((archive_validation_amended oracleW "es" "z.zip").1 none []).1,
   ((archive_validation_amended oracleW "es" "z.zip").2.1 9 "bad" []
     (by decide)).1,
   ((archive_validation_amended oracleW "es" "z.zip").2.2.1 9 (by decide)).1,
   ((archive_validation_amended oracleW "es" "z.zip").2.2.2 9
     [⟨"d/", true, ""⟩] (by decide) (by decide) (by decide)).1⟩

/-! ## Helper lemmas: basenames of stored upload paths -/

theorem foldl_slashStep_no (l : List Char) (h : ∀ c ∈ l, c ≠ '/') :
    ∀ acc : List Char, List.foldl slashStep acc l = acc ++ l := by
  induction l with
  | nil => intro acc; simp
  | cons c cs ih =>
    intro acc
    have hc : c ≠ '/' := h c (by simp)
    rw [List.foldl_cons, show slashStep acc c = acc ++ [c] from if_neg hc,
      ih (fun x hx => h x (by simp [hx])) (acc ++ [c])]
    simp

theorem basenameStr_uploadsPath (ts : Nat) (orig : String)
    (h1 : ∀ c ∈ (Nat.repr ts).data, c ≠ '/')
    (h2 : ∀ c ∈ orig.data, c ≠ '/') :
    basenameStr (uploadsPath ts orig) = Nat.repr ts ++ "-" ++ orig := by
  apply String.ext
  show afterLastSlash (uploadsPath ts orig).data
    = (Nat.repr ts ++ "-" ++ orig).data
  have hdata : (uploadsPath ts orig).data
      = "uploads/".data ++ ((Nat.repr ts ++ "-" ++ orig).data) := by
    unfold uploadsPath
    rw [String.data_append, String.data_append, String.data_append,
      String.data_append]
    simp
  rw [hdata]
  unfold afterLastSlash
  rw [List.foldl_append]
  have hpre : List.foldl slashStep [] "uploads/".data = [] := rfl
  rw [hpre]
  have hrest : ∀ c ∈ (Nat.repr ts ++ "-" ++ orig).data, c ≠ '/' := by
    intro c hc
    rw [String.data_append, String.data_append] at hc
    rcases List.mem_append.1 hc with hc2 | hc2
    · rcases List.mem_append.1 hc2 with hc3 | hc3
      · exact h1 c hc3
      · intro he
        subst he
        simp at hc3
    · exact h2 c hc2
  rw [foldl_slashStep_no _ hrest []]
  rfl

/-- C5 counterexample: `processZip` names the result archive after
`path.basename(zipPath)`, and `zipPath` is the multer-stored name
`{Date.now()}-{originalname}` — so an archive uploaded as `docs.zip`
yields `translated_to_es_1700000000000-docs.zip`, not the
`translated_to_es_docs.zip` the claim requires. -/
theorem zip_archive_name_counterexample :
    (processZipC oracleW "es" 5 none [⟨"a.txt", false, "hi"⟩]
        (uploadsPath 1700000000000 "docs.zip")).fst
      = .ok ("translated_to_es_1700000000000-docs.zip",
          [("translated/a_translated_to_es.txt", "T:hi")]) ∧
      "translated_to_es_1700000000000-docs.zip"
        ≠ "translated_to_es_docs.zip" := by decide

/-- C5 (amended): the result archive of a completed archive job is named
`translated_to_{lang}_{storedName}`, where `storedName` is the basename
of the stored upload path, i.e. `{uploadMillis}-{originalArchiveName}` —
the original name prefixed by the upload timestamp, not the original name
alone. -/
theorem zip_archive_name_amended (o : ZOracles) (lang : String) (ts : Nat)
    (orig : String) (n : Nat) (entries : List ZEntry)
    (hn : n ≠ 0) (hne : entries ≠ [])
    (hsucc : ∃ e ∈ entries, failB o lang e = false)
    (h1 : ∀ c ∈ (Nat.repr ts).data, c ≠ '/')
    (h2 : ∀ c ∈ orig.data, c ≠ '/') :
    ∃ outs calls,
      processZipC o lang n none entries (uploadsPath ts orig)
        = (.ok ("translated_to_" ++ lang ++ "_"
            ++ (Nat.repr ts ++ "-" ++ orig), outs), calls) := by
  have hlen := outs_len o lang entries
  have hemp : zipOuts o lang entries ≠ [] := by
    intro hfm
    obtain ⟨e, he, hef⟩ := hsucc
    have hk : entries.countP (failB o lang) = entries.length := by
      rw [hfm] at hlen
      simpa using hlen
    have := List.countP_eq_length.1 hk e he
    rw [hef] at this
    exact Bool.false_ne_true this
  refine ⟨zipOuts o lang entries, zipCalls o lang entries, ?_⟩
  unfold processZipC
  rw [if_neg hn, if_neg hne, if_neg hemp,
    basenameStr_uploadsPath ts orig h1 h2]

/-- Witness for the amended C5 at a concrete upload. -/
theorem zip_archive_name_amended_witness :
    ∃ outs calls,
      processZipC oracleW "es" 5 none [⟨"a.txt", false, "hi"⟩]
          (uploadsPath 17 "docs.zip")
        = (.ok ("translated_to_" ++ "es" ++ "_"
            ++ (Nat.repr 17 ++ "-" ++ "docs.zip"), outs), calls) :=
  zip_archive_name_amended oracleW "es" 17 "docs.zip" 5
    [⟨"a.txt", false, "hi"⟩] (by decide) (by decide)
    ⟨⟨"a.txt", false, "hi"⟩, by decide, by decide⟩ (by decide) (by decide)

end Tranzo
